import Mathlib

/-!
Verification of the hashwrap SPV-envelope resolver (p2ppsr/hashwrap).

The development shallowly embeds the resolver `hashwrap` from the repository
source.  The canonical implementation (the one with network selection,
testnet credential checks and option threading) is the copy that imports
cwi-external-services and babbage-bsv; the historical copy in src/index.js
additionally contains the inline WhatsOnChain proof normalization, which is
embedded separately as `normalizeWoc`.

External collaborators (the WhatsOnChain indexer, the mAPI attestation
providers, SHA-256, ECDSA, JSON parsing, and raw-transaction input
extraction) are modelled as an oracle record `World`: the resolver is a
deterministic function of the oracle, and statements of the form "this
failure happens before any network access" are expressed as independence
from the corresponding oracle fields (the field is left universally
quantified and unconstrained).

Recursion over the ancestor graph is embedded with an explicit fuel
parameter; fuel is consumed only when a recursive call is made, so the
mined (terminal) path succeeds even with zero fuel, which is the formal
content of "no recursive resolution happens on that branch".  Besides the
envelope, the embedded resolver returns a trace: the list of (identifier,
options) pairs, one per recursive call performed anywhere in the tree, in
call order.
-/

/-- Lowercase hexadecimal digit predicate, the character class [0-9a-f]
of the validation regex in the source. -/
def isHexLower (c : Char) : Bool :=
  (('0' ≤ c && c ≤ '9') || ('a' ≤ c && c ≤ 'f'))

/-- The JavaScript test of the unanchored regex [0-9a-f]{64} on a list of
characters: some contiguous run of 64 lowercase-hex characters occurs. -/
def hasHexRun (n : Nat) : List Char → Bool
  | [] => n == 0
  | c :: t =>
    (decide (n ≤ (c :: t).length) && ((c :: t).take n).all isHexLower) || hasHexRun n t

/-- A string matching the anchored pattern [0-9a-f]{64} from start to end:
exactly 64 lowercase hexadecimal characters.  This is the specification-side
characterisation of a TransactionIdentifier. -/
def matchesHex64 (s : String) : Bool :=
  s.length == 64 && s.data.all isHexLower

/-- Error kinds of the resolver, one constructor per distinct throw site of
the source, carrying the data the corresponding message reports.
The outOfFuel constructor is an artifact of the fuel-based embedding of the
recursion and corresponds to no throw site. -/
inductive Err where
  | txidMissing
  | invalidTxid
  | txNotFound (txid : String)
  | missingCredential
  | wrongCredentialScope
  | signatureInvalid (txid payload publicKey signature : String)
  | malformedPayload (payload : String)
  | txidMismatch (expected actual : String)
  | attestationRejected (txid returnResult resultDescription : String)
  | outOfFuel
deriving DecidableEq, Repr

/-- The classification used by the specification: InvalidIdentifier covers
exactly the two malformed-input throw sites that fire before any network
access (TXID is missing, Invalid TXID). -/
def isInvalidIdentifier : Err → Bool
  | .txidMissing => true
  | .invalidTxid => true
  | _ => false

/-- Validation prologue of hashwrap: the missing-TXID check followed by the
length-and-regex check. -/
def validateTxid (txid : String) : Except Err Unit :=
  if txid = "" then .error .txidMissing
  else if txid.length ≠ 64 ∨ hasHexRun 64 txid.data = false then .error .invalidTxid
  else .ok ()

/-- Canonical Merkle-proof record as delivered to the resolver (the shape
with txOrId, target, targetType, nodes and index fields). -/
structure MerkleProof where
  txOrId : String
  target : String
  targetType : String
  nodes : List String
  index : Nat
deriving DecidableEq, Repr

/-- Raw mAPI response: the signed attestation returned by the transaction
processor, before any verification. -/
structure MapiResponse where
  payload : String
  signature : String
  publicKey : String
deriving DecidableEq, Repr

/-- Decoded attestation payload, the fields the resolver inspects after the
JSON parse. -/
structure Payload where
  txid : String
  returnResult : String
  resultDescription : String
deriving DecidableEq, Repr

/-- Options threaded through the resolver: the network selector and the
TAAL API key, matching the options object of the source. -/
structure ROpts where
  network : Option String := none
  taalApiKey : Option String := none
deriving DecidableEq, Repr

/-- JavaScript truthiness of an optional string option: present and not the
empty string. -/
def truthy : Option String → Bool
  | none => false
  | some s => s != ""

/-- WhatsOnChain network segment selected from the options, mirroring
options.network === 'testnet' ? 'test' : 'main'. -/
def wocNetOf (opts : ROpts) : String :=
  if opts.network = some "testnet" then "test" else "main"

/-- Attestation provider host selected from the options: TAAL when an API
key is (truthily) supplied, GorillaPool otherwise. -/
def providerOf (opts : ROpts) : String :=
  if truthy opts.taalApiKey then "mapi.taal.com" else "mapi.gorillapool.io"

/-- Authorization header content attached to the provider request: the API
key when truthily present, nothing otherwise. -/
def authOf (opts : ROpts) : Option String :=
  if truthy opts.taalApiKey then opts.taalApiKey else none

/-- Testnet credential policy of the source: on testnet an API key is
required and must start with "testnet_". -/
def credCheck (opts : ROpts) : Except Err Unit :=
  if opts.network = some "testnet" then
    if truthy opts.taalApiKey then
      if (opts.taalApiKey.getD "").startsWith "testnet_" then .ok ()
      else .error .wrongCredentialScope
    else .error .missingCredential
  else .ok ()

/-- SPV envelope: the tagged union of the two result shapes of the
resolver.  Pending inputs are an association list in insertion order, which
models the string-keyed JavaScript object built by the input loop. -/
inductive Envelope where
  | mined (rawTx : String) (proof : MerkleProof)
  | pending (rawTx : String) (mapiResponses : List MapiResponse)
      (inputs : List (String × Envelope))

/-- Oracle record for every external collaborator the resolver consults.
rawtx and proof model the WhatsOnChain indexer (network segment, txid);
an empty rawtx string models a falsy indexer response.  mapi models the
attestation provider (host, authorization, txid).  sha256, ecdsaVerify and
jsonParse model the cryptographic and parsing primitives.  txInputs models
the external transaction parser: the list of previous-transaction
identifiers of the inputs of a raw transaction, in input order, possibly
with duplicates. -/
structure World where
  rawtx : String → String → String
  proof : String → String → Option MerkleProof
  mapi : String → Option String → String → MapiResponse
  sha256 : String → String
  ecdsaVerify : String → String → String → Bool
  jsonParse : String → Option Payload
  txInputs : String → List String

/-- Attestation verification steps of the source, in source order: ECDSA
signature over the SHA-256 of the payload bytes, then JSON parse of the
payload, then payload txid equality with the requested identifier, then
returnResult equal to success.  Each failure is terminal. -/
def verifyMapi (w : World) (txid : String) (resp : MapiResponse) : Except Err Payload :=
  if w.ecdsaVerify (w.sha256 resp.payload) resp.signature resp.publicKey ≠ true then
    .error (.signatureInvalid txid resp.payload resp.publicKey resp.signature)
  else
    match w.jsonParse resp.payload with
    | none => .error (.malformedPayload resp.payload)
    | some payload =>
      if payload.txid ≠ txid then .error (.txidMismatch txid payload.txid)
      else if payload.returnResult ≠ "success" then
        .error (.attestationRejected txid payload.returnResult payload.resultDescription)
      else .ok payload

/-- Recursive call trace: one entry per recursive hashwrap invocation,
recording the identifier and the options it was invoked with. -/
abbrev Trace := List (String × ROpts)

/-- Input loop of the pending branch: walk the previous-transaction
identifiers in input order, skip an identifier already present in the
accumulated object, otherwise resolve it recursively via the continuation
k, keyed insertion preserving first-occurrence order; a failing recursive
call aborts the loop and propagates its error. -/
def hashwrapInputs (k : String → Except Err Envelope × Trace) (opts : ROpts) :
    List String → List (String × Envelope) → Trace →
    Except Err (List (String × Envelope)) × Trace
  | [], acc, tr => (.ok acc, tr)
  | t :: ts, acc, tr =>
    if (acc.lookup t).isSome then hashwrapInputs k opts ts acc tr
    else
      match k t with
      | (.error e, ctr) => (.error e, tr ++ (t, opts) :: ctr)
      | (.ok env, ctr) => hashwrapInputs k opts ts (acc ++ [(t, env)]) (tr ++ (t, opts) :: ctr)

/-- One unfolding of the hashwrap body.  The continuation k stands for the
recursive call at one less fuel; k = none means the fuel is exhausted at
the single recursion site.  The stages appear in source order: txid
validation, raw-transaction fetch, Merkle-proof fetch (terminal mined shape
when present), testnet credential checks, provider selection and
attestation fetch, attestation verification, input loop, pending shape. -/
def hashwrapStep (w : World) (k : Option (String → Except Err Envelope × Trace))
    (txid : String) (opts : ROpts) : Except Err Envelope × Trace :=
  match validateTxid txid with
  | .error e => (.error e, [])
  | .ok _ =>
    if w.rawtx (wocNetOf opts) txid = "" then (.error (.txNotFound txid), [])
    else
      match w.proof (wocNetOf opts) txid with
      | some pr => (.ok (.mined (w.rawtx (wocNetOf opts) txid) pr), [])
      | none =>
        match credCheck opts with
        | .error e => (.error e, [])
        | .ok _ =>
          match verifyMapi w txid (w.mapi (providerOf opts) (authOf opts) txid) with
          | .error e => (.error e, [])
          | .ok _payload =>
            match k with
            | none => (.error .outOfFuel, [])
            | some k0 =>
              match hashwrapInputs k0 opts
                  (w.txInputs (w.rawtx (wocNetOf opts) txid)) [] [] with
              | (.ok inputs, tr) =>
                (.ok (.pending (w.rawtx (wocNetOf opts) txid)
                  [w.mapi (providerOf opts) (authOf opts) txid] inputs), tr)
              | (.error e, tr) => (.error e, tr)

/-- The resolver.  Fuel bounds the recursion depth of the embedding and is
consumed only at the recursion site of the pending branch; recursive calls
receive the same options object, as the source passes options through
verbatim. -/
def hashwrap (w : World) : Nat → String → ROpts → Except Err Envelope × Trace
  | 0, txid, opts => hashwrapStep w none txid opts
  | fuel + 1, txid, opts =>
    hashwrapStep w (some (fun t => hashwrap w fuel t opts)) txid opts

/-- Deduplication keeping the first occurrence of each element, with an
explicit list of already-seen elements; the specification-side description
of what the input loop builds. -/
def dedupAcc (seen : List String) : List String → List String
  | [] => []
  | t :: ts => if t ∈ seen then dedupAcc seen ts else t :: dedupAcc (seen ++ [t]) ts

/-- Distinct elements of a list in order of first occurrence. -/
def dedupFirst (l : List String) : List String := dedupAcc [] l

/-- Top-level options as exposed by getEnvelope in the specification:
resolver options plus the output-format selector, which applies at the top
level only. -/
structure GetOptions where
  network : Option String := none
  taalApiKey : Option String := none
  outputFormat : Option String := none

/-- Resolver options obtained from the top-level options by dropping the
output-format selector. -/
def GetOptions.toROpts (g : GetOptions) : ROpts :=
  { network := g.network, taalApiKey := g.taalApiKey }

/-- Result of the top-level operation: the structured envelope, or its
binary transport encoding. -/
inductive Output where
  | structured (env : Envelope)
  | transport (bytes : List Nat)

/-- Modelled from the spec: the top-level getEnvelope operation and the
external encodeAsTransportFormat collaborator are not present under src
(the test suite invokes hashwrap with a format option, but no copy of the
resolver under src interprets it).  Per the specification, the assembled
envelope is converted to the transport encoding at the top level exactly
when the transport output format is requested; the encoder is an external
collaborator passed as the function encode, to which the recursive resolver
hashwrap has no access. -/
def getEnvelope (w : World) (encode : Envelope → List Nat) (fuel : Nat)
    (txid : String) (g : GetOptions) : Except Err Output :=
  match (hashwrap w fuel txid g.toROpts).1 with
  | .error e => .error e
  | .ok env =>
    if g.outputFormat = some "transport" then .ok (.transport (encode env))
    else .ok (.structured env)

/-- One branch of a raw WhatsOnChain proof record: a sibling hash and a
side indicator. -/
structure WocBranch where
  hash : String
  pos : String
deriving DecidableEq, Repr

/-- Raw WhatsOnChain proof record (the first element of the array the
indexer returns): subject hash, Merkle root, and the branch list. -/
structure WocRecord where
  hash : String
  merkleRoot : String
  branches : List WocBranch
deriving DecidableEq, Repr

/-- Normalized proof produced by the inline normalization of the source.
The index is an Option: none models the NaN that JavaScript parseInt
returns on an empty digit string. -/
structure WocNormalized where
  txOrId : String
  target : String
  targetType : String
  nodes : List String
  index : Option Nat
deriving DecidableEq, Repr

/-- JavaScript parseInt with radix 2, restricted to the strings the
normalizer builds, which consist only of the characters 0 and 1: the empty
string parses to NaN (none), a nonempty string to its base-2 value. -/
def parseIntBase2 : List Char → Option Nat
  | [] => none
  | c :: cs =>
    some ((c :: cs).foldl (fun a ch => 2 * a + (if ch = '1' then 1 else 0)) 0)

/-- Bit character contributed by one branch in the reduce of the source:
the character 0 when the sibling is on the right, the character 1
otherwise. -/
def branchBit (b : WocBranch) : Char :=
  if b.pos = "R" then '0' else '1'

/-- Inline proof normalization of the source: copy subject hash and root,
fix the target type, project the branch hashes in order, and parse the
reduce-built bit string as a base-2 integer. -/
def normalizeWoc (r : WocRecord) : WocNormalized :=
  { txOrId := r.hash
    target := r.merkleRoot
    targetType := "merkleRoot"
    nodes := r.branches.map WocBranch.hash
    index := parseIntBase2 (r.branches.map branchBit) }

/-- Side bit of a branch as a number, the specification-side reading of the
side indicator: 0 when the sibling is on the right, 1 otherwise. -/
def sideBit (b : WocBranch) : Nat :=
  if b.pos = "R" then 0 else 1

/-- Value of a bit list read most-significant-bit first: the first element
carries the highest weight.  This is the specification-side meaning of
"the i-th bit, most significant first". -/
def msbVal : List Nat → Nat
  | [] => 0
  | b :: bs => b * 2 ^ bs.length + msbVal bs

/-- Modelled from the spec: lowercase hexadecimal rendering of a byte
sequence, two characters per byte, as performed by the external buffer
library on the 32-byte previous-transaction hash before the recursive
call.  A nibble below ten maps into the digit block starting at code 48,
a nibble of ten or more into the lowercase block where the letter a has
code 97, so the offset is 87. -/
def hexDigitChar (n : Nat) : Char :=
  if n < 10 then Char.ofNat (48 + n) else Char.ofNat (87 + n)

/-- Hexadecimal rendering of one byte: high nibble then low nibble. -/
def hexOfByte (b : Nat) : List Char :=
  [hexDigitChar (b / 16), hexDigitChar (b % 16)]

/-- Hexadecimal rendering of a byte list. -/
def hexOfBytes (bs : List (Fin 256)) : String :=
  ⟨(bs.map (fun b => hexOfByte b.val)).flatten⟩

/-! Concrete data used by the witnesses: three valid transaction
identifiers, a stub proof record, and small oracle worlds exercising each
path of the resolver. -/

/-- Valid identifier consisting of 64 times the character a. -/
def tA : String := ⟨List.replicate 64 'a'⟩

/-- Valid identifier consisting of 64 times the character b. -/
def tB : String := ⟨List.replicate 64 'b'⟩

/-- Valid identifier consisting of 64 times the character c. -/
def tC : String := ⟨List.replicate 64 'c'⟩

/-- Stub canonical proof record. -/
def prStub : MerkleProof :=
  { txOrId := "t", target := "m", targetType := "merkleRoot", nodes := [], index := 0 }

/-- Default resolver options: no network selector, no API key. -/
def opts0 : ROpts := { network := none, taalApiKey := none }

/-- World whose indexer has no transaction bytes at all and whose
signature primitive rejects everything. -/
def w0 : World :=
  { rawtx := fun _ _ => ""
    proof := fun _ _ => none
    mapi := fun _ _ _ => ⟨"", "", ""⟩
    sha256 := fun s => s
    ecdsaVerify := fun _ _ _ => false
    jsonParse := fun _ => none
    txInputs := fun _ => [] }

/-- World in which every transaction is mined with the stub proof. -/
def wMined : World :=
  { rawtx := fun _ _ => "x"
    proof := fun _ _ => some prStub
    mapi := fun _ _ _ => ⟨"", "", ""⟩
    sha256 := fun s => s
    ecdsaVerify := fun _ _ _ => false
    jsonParse := fun _ => none
    txInputs := fun _ => [] }

/-- World in which no transaction has a proof, raw bytes always exist, and
no attestation verifies. -/
def wTest : World :=
  { rawtx := fun _ _ => "x"
    proof := fun _ _ => none
    mapi := fun _ _ _ => ⟨"", "", ""⟩
    sha256 := fun s => s
    ecdsaVerify := fun _ _ _ => false
    jsonParse := fun _ => none
    txInputs := fun _ => [] }

/-- World in which tA is pending with ancestors tB, tC and a duplicated
reference to tB, every other transaction is mined, and every attestation
verifies with a payload echoing the requested identifier. -/
def wP : World :=
  { rawtx := fun _ t => "r" ++ t
    proof := fun _ t => if t = tA then none else some prStub
    mapi := fun _ _ t => ⟨t, "s", "p"⟩
    sha256 := fun s => s
    ecdsaVerify := fun _ _ _ => true
    jsonParse := fun s => some ⟨s, "success", ""⟩
    txInputs := fun r => if r = "r" ++ tA then [tB, tC, tB] else [] }

/-! Lemmas about the validation regex embedding. -/

/-- A run of n hexadecimal characters needs at least n characters. -/
theorem hasHexRun_length_le {n : Nat} {l : List Char} (h : hasHexRun n l = true) :
    n ≤ l.length := by
  induction l with
  | nil =>
    simp only [hasHexRun, beq_iff_eq] at h
    omega
  | cons c t ih =>
    rw [hasHexRun, Bool.or_eq_true] at h
    cases h with
    | inl h1 =>
      rw [Bool.and_eq_true] at h1
      exact of_decide_eq_true h1.1
    | inr h2 =>
      have := ih h2
      simp only [List.length_cons]
      omega

/-- On a list of exactly 64 characters, a 64-run forces every character to
be lowercase hexadecimal. -/
theorem all_of_hasHexRun {l : List Char} (hlen : l.length = 64)
    (h : hasHexRun 64 l = true) : l.all isHexLower = true := by
  cases l with
  | nil => simp at hlen
  | cons c t =>
    rw [hasHexRun, Bool.or_eq_true] at h
    cases h with
    | inl h1 =>
      rw [Bool.and_eq_true] at h1
      have h2 := h1.2
      rwa [← hlen, List.take_length] at h2
    | inr h2 =>
      have h3 := hasHexRun_length_le h2
      simp only [List.length_cons] at hlen
      omega

/-- Conversely, 64 characters all lowercase hexadecimal contain a 64-run. -/
theorem hasHexRun_of_all {l : List Char} (hlen : l.length = 64)
    (h : l.all isHexLower = true) : hasHexRun 64 l = true := by
  cases l with
  | nil => simp at hlen
  | cons c t =>
    rw [hasHexRun, Bool.or_eq_true]
    left
    rw [Bool.and_eq_true]
    refine ⟨decide_eq_true (by omega), ?_⟩
    rw [← hlen, List.take_length]
    exact h

/-- The validation prologue succeeds exactly on strings of 64 lowercase
hexadecimal characters: the unanchored regex of the source combined with
the length check is equivalent to the anchored pattern of the
specification. -/
theorem validateTxid_ok_iff (s : String) :
    validateTxid s = .ok () ↔ matchesHex64 s = true := by
  have hdata : s.length = s.data.length := rfl
  by_cases hs : s = ""
  · subst hs
    constructor
    · intro h
      simp [validateTxid] at h
    · intro h
      exact absurd h (by decide)
  · rw [validateTxid, if_neg hs]
    by_cases hc : s.length ≠ 64 ∨ hasHexRun 64 s.data = false
    · rw [if_pos hc]
      constructor
      · intro h
        exact absurd h (by simp)
      · intro h
        rw [matchesHex64, Bool.and_eq_true, beq_iff_eq] at h
        rcases hc with hc | hc
        · exact absurd h.1 hc
        · rw [hasHexRun_of_all (by omega) h.2] at hc
          simp at hc
    · rw [if_neg hc]
      push_neg at hc
      have h2 : hasHexRun 64 s.data = true := by
        rcases Bool.eq_false_or_eq_true (hasHexRun 64 s.data) with hb | hb
        · exact hb
        · exact absurd hb hc.2
      constructor
      · intro _
        rw [matchesHex64, Bool.and_eq_true, beq_iff_eq]
        exact ⟨hc.1, all_of_hasHexRun (by omega) h2⟩
      · intro _
        rfl

/-- Convenience direction of the validation equivalence. -/
theorem validate_of_matches {s : String} (h : matchesHex64 s = true) :
    validateTxid s = .ok () :=
  (validateTxid_ok_iff s).mpr h

/-! Lemmas about the proof normalizer. -/

/-- The folded base-2 accumulator equals the most-significant-bit-first
value of the side bits, shifted past an arbitrary initial accumulator. -/
theorem foldl_bits_eq (l : List WocBranch) :
    ∀ a : Nat,
      (l.map branchBit).foldl (fun x ch => 2 * x + (if ch = '1' then 1 else 0)) a
        = a * 2 ^ l.length + msbVal (l.map sideBit) := by
  induction l with
  | nil =>
    intro a
    simp [msbVal]
  | cons b bs ih =>
    intro a
    rw [List.map_cons, List.foldl_cons, ih, List.map_cons, msbVal]
    have hbit : (if branchBit b = '1' then 1 else 0) = sideBit b := by
      unfold branchBit sideBit
      split <;> simp
    rw [hbit]
    simp only [List.length_map, List.length_cons]
    ring

/-! Lemmas about the input loop and its deduplication behaviour. -/

/-- Presence of a key in the accumulated association list coincides with
membership of the key list. -/
theorem lookup_isSome_iff (t : String) (acc : List (String × Envelope)) :
    (acc.lookup t).isSome = true ↔ t ∈ acc.map Prod.fst := by
  induction acc with
  | nil => simp [List.lookup]
  | cons p ps ih =>
    obtain ⟨a, b⟩ := p
    by_cases h : t = a
    · subst h
      simp [List.lookup]
    · have hbeq : (t == a) = false := by
        simp [h]
      rw [List.lookup, hbeq]
      simp [ih, h]

/-- Keys produced by the input loop: the accumulated keys followed by the
distinct new identifiers in order of first occurrence. -/
theorem hashwrapInputs_ok_keys (k : String → Except Err Envelope × Trace) (opts : ROpts) :
    ∀ (l : List String) (acc : List (String × Envelope)) (tr : Trace)
      (inputs : List (String × Envelope)) (tr' : Trace),
      hashwrapInputs k opts l acc tr = (.ok inputs, tr') →
      inputs.map Prod.fst = acc.map Prod.fst ++ dedupAcc (acc.map Prod.fst) l := by
  intro l
  induction l with
  | nil =>
    intro acc tr inputs tr' h
    rw [hashwrapInputs] at h
    obtain ⟨h1, _⟩ := Prod.mk.injEq .. ▸ h
    cases h
    simp [dedupAcc]
  | cons t ts ih =>
    intro acc tr inputs tr' h
    rw [hashwrapInputs] at h
    by_cases hmem : (acc.lookup t).isSome = true
    · rw [if_pos hmem] at h
      rw [ih acc tr inputs tr' h, dedupAcc,
        if_pos ((lookup_isSome_iff t acc).mp hmem)]
    · rw [if_neg hmem] at h
      rcases hk : k t with ⟨r, ctr⟩
      rw [hk] at h
      cases r with
      | error e => simp at h
      | ok env =>
        have h2 := ih (acc ++ [(t, env)]) (tr ++ (t, opts) :: ctr) inputs tr' h
        have hnot : t ∉ acc.map Prod.fst := fun hc =>
          hmem ((lookup_isSome_iff t acc).mpr hc)
        rw [h2, dedupAcc, if_neg hnot]
        simp

/-- Every element of the deduplicated list is an element of the original
not previously seen. -/
theorem mem_dedupAcc (l : List String) :
    ∀ (seen : List String) (t : String),
      t ∈ dedupAcc seen l ↔ (t ∈ l ∧ t ∉ seen) := by
  induction l with
  | nil => simp [dedupAcc]
  | cons a as ih =>
    intro seen t
    rw [dedupAcc]
    by_cases ha : a ∈ seen
    · rw [if_pos ha, ih]
      constructor
      · rintro ⟨h1, h2⟩
        exact ⟨List.mem_cons_of_mem a h1, h2⟩
      · rintro ⟨h1, h2⟩
        rcases List.mem_cons.mp h1 with h1 | h1
        · subst h1
          exact absurd ha h2
        · exact ⟨h1, h2⟩
    · rw [if_neg ha]
      by_cases hta : t = a
      · subst hta
        simp [ha]
      · constructor
        · intro hmem
          rcases List.mem_cons.mp hmem with h1 | h1
          · exact absurd h1 hta
          · obtain ⟨h2, h3⟩ := (ih (seen ++ [a]) t).mp h1
            simp only [List.mem_append, List.mem_singleton] at h3
            push_neg at h3
            exact ⟨List.mem_cons_of_mem a h2, h3.1⟩
        · rintro ⟨h1, h2⟩
          rcases List.mem_cons.mp h1 with h1 | h1
          · exact absurd h1 hta
          · refine List.mem_cons_of_mem a ((ih (seen ++ [a]) t).mpr ⟨h1, ?_⟩)
            simp only [List.mem_append, List.mem_singleton]
            push_neg
            exact ⟨h2, hta⟩

/-- The deduplicated list has no duplicate element. -/
theorem dedupAcc_nodup (l : List String) :
    ∀ seen : List String, (dedupAcc seen l).Nodup := by
  induction l with
  | nil =>
    intro seen
    simp [dedupAcc]
  | cons a as ih =>
    intro seen
    rw [dedupAcc]
    by_cases ha : a ∈ seen
    · rw [if_pos ha]
      exact ih seen
    · rw [if_neg ha]
      rw [List.nodup_cons]
      refine ⟨fun hmem => ?_, ih (seen ++ [a])⟩
      have h2 := ((mem_dedupAcc as (seen ++ [a]) a).mp hmem).2
      simp at h2

/-- A trace property preserved by the input loop: if it holds of the
accumulated trace, of every new call record, and of every trace an
individual recursive call produces, then it holds of the final trace. -/
theorem hashwrapInputs_trace (k : String → Except Err Envelope × Trace) (opts : ROpts)
    (P : String × ROpts → Prop) :
    ∀ (l : List String) (acc : List (String × Envelope)) (tr : Trace)
      (res : Except Err (List (String × Envelope))) (tr' : Trace),
      (∀ t, t ∈ l → ∀ e ∈ (k t).2, P e) →
      (∀ t, t ∈ l → P (t, opts)) →
      (∀ e ∈ tr, P e) →
      hashwrapInputs k opts l acc tr = (res, tr') →
      ∀ e ∈ tr', P e := by
  intro l
  induction l with
  | nil =>
    intro acc tr res tr' _ _ htr h
    rw [hashwrapInputs] at h
    cases h
    exact htr
  | cons t ts ih =>
    intro acc tr res tr' hk hopts htr h
    rw [hashwrapInputs] at h
    by_cases hmem : (acc.lookup t).isSome = true
    · rw [if_pos hmem] at h
      exact ih acc tr res tr'
        (fun u hu => hk u (List.mem_cons_of_mem t hu))
        (fun u hu => hopts u (List.mem_cons_of_mem t hu)) htr h
    · rw [if_neg hmem] at h
      rcases hkt : k t with ⟨r, ctr⟩
      rw [hkt] at h
      have hctr : ∀ e ∈ ctr, P e := by
        intro e he
        have := hk t (List.mem_cons_self t ts) e
        rw [hkt] at this
        exact this he
      have hmid : ∀ e ∈ tr ++ (t, opts) :: ctr, P e := by
        intro e he
        rcases List.mem_append.mp he with he | he
        · exact htr e he
        · rcases List.mem_cons.mp he with he | he
          · subst he
            exact hopts t (List.mem_cons_self t ts)
          · exact hctr e he
      cases r with
      | error e2 =>
        cases h
        exact hmid
      | ok env =>
        exact ih (acc ++ [(t, env)]) (tr ++ (t, opts) :: ctr) res tr'
          (fun u hu => hk u (List.mem_cons_of_mem t hu))
          (fun u hu => hopts u (List.mem_cons_of_mem t hu)) hmid h

/-- A failing input loop pinpoints a failing recursive call on one of the
listed identifiers. -/
theorem hashwrapInputs_error (k : String → Except Err Envelope × Trace) (opts : ROpts) :
    ∀ (l : List String) (acc : List (String × Envelope)) (tr : Trace)
      (e : Err) (tr' : Trace),
      hashwrapInputs k opts l acc tr = (.error e, tr') →
      ∃ t, t ∈ l ∧ (k t).1 = .error e := by
  intro l
  induction l with
  | nil =>
    intro acc tr e tr' h
    rw [hashwrapInputs] at h
    simp at h
  | cons t ts ih =>
    intro acc tr e tr' h
    rw [hashwrapInputs] at h
    by_cases hmem : (acc.lookup t).isSome = true
    · rw [if_pos hmem] at h
      obtain ⟨u, hu, he⟩ := ih acc tr e tr' h
      exact ⟨u, List.mem_cons_of_mem t hu, he⟩
    · rw [if_neg hmem] at h
      rcases hkt : k t with ⟨r, ctr⟩
      rw [hkt] at h
      cases r with
      | error e2 =>
        refine ⟨t, List.mem_cons_self t ts, ?_⟩
        rw [hkt]
        obtain ⟨h1, _⟩ := Prod.mk.injEq .. ▸ h
        cases h
        rfl
      | ok env =>
        obtain ⟨u, hu, he⟩ := ih (acc ++ [(t, env)]) (tr ++ (t, opts) :: ctr) e tr' h
        exact ⟨u, List.mem_cons_of_mem t hu, he⟩

/-! Lemmas about one unfolding of the resolver body. -/

/-- With the continuation exhausted, one unfolding performs no recursive
call: its trace is empty on every path. -/
theorem hashwrapStep_none_trace (w : World) (txid : String) (opts : ROpts) :
    (hashwrapStep w none txid opts).2 = [] := by
  unfold hashwrapStep
  repeat' split
  all_goals first | rfl | simp_all

/-- A trace property holds of one unfolding provided it holds of the
traces of the continuation and of each direct call record. -/
theorem hashwrapStep_some_trace (w : World) (txid : String) (opts : ROpts)
    (k0 : String → Except Err Envelope × Trace) (P : String × ROpts → Prop)
    (hk : ∀ t, t ∈ w.txInputs (w.rawtx (wocNetOf opts) txid) → ∀ e ∈ (k0 t).2, P e)
    (hopts : ∀ t, t ∈ w.txInputs (w.rawtx (wocNetOf opts) txid) → P (t, opts)) :
    ∀ e ∈ (hashwrapStep w (some k0) txid opts).2, P e := by
  unfold hashwrapStep
  repeat' split
  all_goals try (intro e he; exact absurd he (List.not_mem_nil e))
  all_goals
    rename_i k0a hkeq x v tr2 hloop
  all_goals
    injection hkeq with hke
  all_goals
    subst hke
  all_goals
    intro e he
  · exact hashwrapInputs_trace k0 opts P _ [] [] _ _ hk hopts (by simp) hloop e he
  · exact hashwrapInputs_trace k0 opts P _ [] [] _ _ hk hopts (by simp) hloop e he

/-- Terminal mined path of one unfolding: a present proof yields the mined
envelope with an empty trace, for any continuation. -/
theorem hashwrapStep_mined (w : World) (k : Option (String → Except Err Envelope × Trace))
    (txid : String) (opts : ROpts) (pr : MerkleProof)
    (hv : validateTxid txid = .ok ())
    (hraw : w.rawtx (wocNetOf opts) txid ≠ "")
    (hpr : w.proof (wocNetOf opts) txid = some pr) :
    hashwrapStep w k txid opts = (.ok (.mined (w.rawtx (wocNetOf opts) txid) pr), []) := by
  unfold hashwrapStep
  rw [hv, if_neg hraw, hpr]

/-- Credential-policy failure of one unfolding: with raw bytes present and
no proof, a failing credential check is returned unchanged, before the
attestation provider is consulted. -/
theorem hashwrapStep_credError (w : World) (k : Option (String → Except Err Envelope × Trace))
    (txid : String) (opts : ROpts) (e : Err)
    (hv : validateTxid txid = .ok ())
    (hraw : w.rawtx (wocNetOf opts) txid ≠ "")
    (hpr : w.proof (wocNetOf opts) txid = none)
    (hc : credCheck opts = .error e) :
    hashwrapStep w k txid opts = (.error e, []) := by
  unfold hashwrapStep
  rw [hv, if_neg hraw, hpr, hc]

/-- Inversion of the pending result of one unfolding: every earlier stage
passed, the raw transaction and the attestation are the fetched ones, the
attestation verified, and the inputs were assembled by the input loop
through the continuation. -/
theorem hashwrapStep_pending_inv (w : World)
    (k : Option (String → Except Err Envelope × Trace)) (txid : String) (opts : ROpts)
    (raw : String) (resps : List MapiResponse) (inputs : List (String × Envelope))
    (tr : Trace)
    (h : hashwrapStep w k txid opts = (.ok (.pending raw resps inputs), tr)) :
    validateTxid txid = .ok () ∧
    raw = w.rawtx (wocNetOf opts) txid ∧
    w.rawtx (wocNetOf opts) txid ≠ "" ∧
    w.proof (wocNetOf opts) txid = none ∧
    credCheck opts = .ok () ∧
    (∃ p, verifyMapi w txid (w.mapi (providerOf opts) (authOf opts) txid) = .ok p) ∧
    resps = [w.mapi (providerOf opts) (authOf opts) txid] ∧
    ∃ k0, k = some k0 ∧
      hashwrapInputs k0 opts (w.txInputs (w.rawtx (wocNetOf opts) txid)) [] []
        = (.ok inputs, tr) := by
  unfold hashwrapStep at h
  split at h
  · simp at h
  case _ u hval =>
    split at h
    · simp at h
    case _ hraw =>
      split at h
      case _ pr hpr => simp at h
      case _ hpr =>
        split at h
        · simp at h
        case _ u2 hcred =>
          split at h
          · simp at h
          case _ p hver =>
            split at h
            · simp at h
            case _ k0 =>
              split at h
              case _ inputs2 tr2 hloop =>
                obtain ⟨h1, h2⟩ := Prod.mk.injEq .. ▸ h
                obtain ⟨hraw2, hresp, hinp⟩ := Envelope.pending.injEq .. ▸
                  (Except.ok.injEq .. ▸ h1)
                subst h2
                subst hinp
                cases u
                cases u2
                exact ⟨hval, hraw2.symm, hraw, hpr, hcred, ⟨p, hver⟩, hresp.symm,
                  k0, rfl, hloop⟩
              case _ e2 tr2 hloop => simp at h

/-- Inversion of a failing unfolding: the error originates at one of the
stage boundaries, or in a recursive call of the input loop. -/
theorem hashwrapStep_error_inv (w : World)
    (k : Option (String → Except Err Envelope × Trace)) (txid : String) (opts : ROpts)
    (e : Err) (tr : Trace)
    (h : hashwrapStep w k txid opts = (.error e, tr)) :
    validateTxid txid = .error e ∨
    e = .txNotFound txid ∨
    credCheck opts = .error e ∨
    verifyMapi w txid (w.mapi (providerOf opts) (authOf opts) txid) = .error e ∨
    e = .outOfFuel ∨
    ∃ k0, k = some k0 ∧
      ∃ t, t ∈ w.txInputs (w.rawtx (wocNetOf opts) txid) ∧ (k0 t).1 = .error e := by
  unfold hashwrapStep at h
  split at h
  case _ e2 hval =>
    obtain ⟨h1, _⟩ := Prod.mk.injEq .. ▸ h
    cases h1
    exact Or.inl hval
  case _ u hval =>
    split at h
    case _ hraw =>
      obtain ⟨h1, _⟩ := Prod.mk.injEq .. ▸ h
      cases h1
      exact Or.inr (Or.inl rfl)
    case _ hraw =>
      split at h
      case _ pr hpr => simp at h
      case _ hpr =>
        split at h
        case _ e2 hcred =>
          obtain ⟨h1, _⟩ := Prod.mk.injEq .. ▸ h
          cases h1
          exact Or.inr (Or.inr (Or.inl hcred))
        case _ u2 hcred =>
          split at h
          case _ e2 hver =>
            obtain ⟨h1, _⟩ := Prod.mk.injEq .. ▸ h
            cases h1
            exact Or.inr (Or.inr (Or.inr (Or.inl hver)))
          case _ p hver =>
            split at h
            · obtain ⟨h1, _⟩ := Prod.mk.injEq .. ▸ h
              cases h1
              exact Or.inr (Or.inr (Or.inr (Or.inr (Or.inl rfl))))
            case _ k0 =>
              split at h
              case _ inputs2 tr2 hloop => simp at h
              case _ e2 tr2 hloop =>
                obtain ⟨h1, h2⟩ := Prod.mk.injEq .. ▸ h
                cases h1
                subst h2
                obtain ⟨t, ht, he⟩ :=
                  hashwrapInputs_error k0 opts _ [] [] _ _ hloop
                exact Or.inr (Or.inr (Or.inr (Or.inr (Or.inr
                  ⟨k0, rfl, t, ht, he⟩))))

/-! Lemmas about the resolver at arbitrary recursion depth. -/

/-- Inversion of a pending result: the attestation verified, the responses
are the single fetched attestation, and the inputs come from the input
loop over the raw transaction the indexer returned, at one less fuel. -/
theorem hashwrap_pending_inv (w : World) (fuel : Nat) (txid : String) (opts : ROpts)
    (raw : String) (resps : List MapiResponse) (inputs : List (String × Envelope))
    (tr : Trace)
    (h : hashwrap w fuel txid opts = (.ok (.pending raw resps inputs), tr)) :
    raw = w.rawtx (wocNetOf opts) txid ∧
    resps = [w.mapi (providerOf opts) (authOf opts) txid] ∧
    (∃ p, verifyMapi w txid (w.mapi (providerOf opts) (authOf opts) txid) = .ok p) ∧
    ∃ fuel0, fuel = fuel0 + 1 ∧
      hashwrapInputs (fun t => hashwrap w fuel0 t opts) opts (w.txInputs raw) [] []
        = (.ok inputs, tr) := by
  cases fuel with
  | zero =>
    rw [hashwrap] at h
    obtain ⟨_, _, _, _, _, _, _, k0, hk0, _⟩ :=
      hashwrapStep_pending_inv w none txid opts raw resps inputs tr h
    cases hk0
  | succ fuel0 =>
    rw [hashwrap] at h
    obtain ⟨hval, hraw2, hraw, hpr, hcred, hver, hresp, k0, hk0, hloop⟩ :=
      hashwrapStep_pending_inv w _ txid opts raw resps inputs tr h
    injection hk0 with hke
    subst hke
    refine ⟨hraw2, hresp, hver, fuel0, rfl, ?_⟩
    rw [hraw2]
    exact hloop

/-- Every recursive call anywhere in the resolution tree is performed with
the same options object as the top-level call. -/
theorem hashwrap_trace_opts (w : World) :
    ∀ (fuel : Nat) (txid : String) (opts : ROpts) (r : Except Err Envelope) (tr : Trace),
      hashwrap w fuel txid opts = (r, tr) → ∀ e ∈ tr, e.2 = opts := by
  intro fuel
  induction fuel with
  | zero =>
    intro txid opts r tr h e he
    rw [hashwrap] at h
    have h2 : tr = (hashwrapStep w none txid opts).2 := by rw [h]
    rw [hashwrapStep_none_trace w txid opts] at h2
    subst h2
    cases he
  | succ fuel ih =>
    intro txid opts r tr h e he
    rw [hashwrap] at h
    have h2 := hashwrapStep_some_trace w txid opts (fun t => hashwrap w fuel t opts)
      (fun e2 => e2.2 = opts)
      (fun t _ e2 he2 =>
        ih t opts (hashwrap w fuel t opts).1 (hashwrap w fuel t opts).2 rfl e2 he2)
      (fun t _ => rfl)
    rw [h] at h2
    exact h2 e he

/-- A failing credential check fails with one of the two policy errors. -/
theorem credCheck_error_inv (opts : ROpts) (e : Err) (h : credCheck opts = .error e) :
    e = .missingCredential ∨ e = .wrongCredentialScope := by
  unfold credCheck at h
  repeat' split at h
  all_goals cases h
  · right
    rfl
  · left
    rfl

/-- No attestation-verification failure is classified InvalidIdentifier. -/
theorem verifyMapi_error_not_invalid (w : World) (txid : String) (resp : MapiResponse)
    (e : Err) (h : verifyMapi w txid resp = .error e) :
    isInvalidIdentifier e = false := by
  unfold verifyMapi at h
  repeat' split at h
  all_goals cases h
  all_goals rfl

/-- A failing validation prologue fails with an InvalidIdentifier error. -/
theorem validateTxid_error_invalid (txid : String) (e : Err)
    (h : validateTxid txid = .error e) : isInvalidIdentifier e = true := by
  unfold validateTxid at h
  repeat' split at h
  all_goals cases h
  all_goals rfl

/-- When every identifier the transaction parser can produce is a valid
64-character lowercase-hex identifier and the top-level identifier is
valid, no resolution error anywhere in the tree is an InvalidIdentifier
error: the validation branch is unreachable in recursive calls. -/
theorem hashwrap_no_invalid (w : World)
    (hin : ∀ raw t, t ∈ w.txInputs raw → matchesHex64 t = true) :
    ∀ (fuel : Nat) (txid : String) (opts : ROpts), matchesHex64 txid = true →
      ∀ (e : Err) (tr : Trace), hashwrap w fuel txid opts = (.error e, tr) →
        isInvalidIdentifier e = false := by
  intro fuel
  induction fuel with
  | zero =>
    intro txid opts hv e tr h
    rw [hashwrap] at h
    rcases hashwrapStep_error_inv w none txid opts e tr h with
      hc | hc | hc | hc | hc | hc
    · rw [validate_of_matches hv] at hc
      exact absurd hc (by simp)
    · subst hc
      rfl
    · rcases credCheck_error_inv opts e hc with hc2 | hc2 <;> subst hc2 <;> rfl
    · exact verifyMapi_error_not_invalid w txid _ e hc
    · subst hc
      rfl
    · obtain ⟨k0, hk0, _⟩ := hc
      cases hk0
  | succ fuel ih =>
    intro txid opts hv e tr h
    rw [hashwrap] at h
    rcases hashwrapStep_error_inv w _ txid opts e tr h with
      hc | hc | hc | hc | hc | hc
    · rw [validate_of_matches hv] at hc
      exact absurd hc (by simp)
    · subst hc
      rfl
    · rcases credCheck_error_inv opts e hc with hc2 | hc2 <;> subst hc2 <;> rfl
    · exact verifyMapi_error_not_invalid w txid _ e hc
    · subst hc
      rfl
    · obtain ⟨k0, hk0, t, ht, he⟩ := hc
      injection hk0 with hke
      subst hke
      have hvt := hin _ t ht
      have heq : hashwrap w fuel t opts = (.error e, (hashwrap w fuel t opts).2) := by
        rw [← he]
      exact ih t opts hvt e (hashwrap w fuel t opts).2 heq

/-- When every identifier the transaction parser can produce is valid,
every identifier passed to a recursive call is valid. -/
theorem hashwrap_trace_valid (w : World)
    (hin : ∀ raw t, t ∈ w.txInputs raw → matchesHex64 t = true) :
    ∀ (fuel : Nat) (txid : String) (opts : ROpts) (r : Except Err Envelope) (tr : Trace),
      hashwrap w fuel txid opts = (r, tr) → ∀ e ∈ tr, matchesHex64 e.1 = true := by
  intro fuel
  induction fuel with
  | zero =>
    intro txid opts r tr h e he
    rw [hashwrap] at h
    have h2 : tr = (hashwrapStep w none txid opts).2 := by rw [h]
    rw [hashwrapStep_none_trace w txid opts] at h2
    subst h2
    cases he
  | succ fuel ih =>
    intro txid opts r tr h e he
    rw [hashwrap] at h
    have h2 := hashwrapStep_some_trace w txid opts (fun t => hashwrap w fuel t opts)
      (fun e2 => matchesHex64 e2.1 = true)
      (fun t _ e2 he2 =>
        ih t opts (hashwrap w fuel t opts).1 (hashwrap w fuel t opts).2 rfl e2 he2)
      (fun t ht => hin _ t ht)
    rw [h] at h2
    exact h2 e he

/-! Lemmas about the hexadecimal rendering of byte sequences. -/

/-- Every nibble renders to a lowercase hex digit. -/
theorem hexDigitChar_hex : ∀ i : Fin 16, isHexLower (hexDigitChar i.val) = true := by
  decide

/-- The rendering of one byte is two lowercase hex characters. -/
theorem hexOfByte_spec (b : Fin 256) :
    (hexOfByte b.val).length = 2 ∧ (hexOfByte b.val).all isHexLower = true := by
  refine ⟨rfl, ?_⟩
  have hb := b.isLt
  have h1 : b.val / 16 < 16 := by omega
  have h2 : b.val % 16 < 16 := by omega
  have g1 := hexDigitChar_hex ⟨b.val / 16, h1⟩
  have g2 := hexDigitChar_hex ⟨b.val % 16, h2⟩
  rw [hexOfByte]
  simp only [List.all_cons, List.all_nil, Bool.and_true, Bool.and_eq_true]
  exact ⟨g1, g2⟩

/-- The rendering of a byte list has twice its length and consists of
lowercase hex characters only. -/
theorem hexOfBytes_spec (bs : List (Fin 256)) :
    ((bs.map (fun b => hexOfByte b.val)).flatten).length = 2 * bs.length ∧
    ((bs.map (fun b => hexOfByte b.val)).flatten).all isHexLower = true := by
  induction bs with
  | nil => exact ⟨rfl, rfl⟩
  | cons b bs ih =>
    rw [List.map_cons, List.flatten_cons]
    obtain ⟨ih1, ih2⟩ := ih
    obtain ⟨h1, h2⟩ := hexOfByte_spec b
    constructor
    · rw [List.length_append, h1, ih1, List.length_cons]
      ring
    · rw [List.all_append, h2, ih2]
      rfl

/-- The hexadecimal rendering of a 32-byte hash is a valid transaction
identifier. -/
theorem hexOfBytes_matches (bs : List (Fin 256)) (hlen : bs.length = 32) :
    matchesHex64 (hexOfBytes bs) = true := by
  obtain ⟨h1, h2⟩ := hexOfBytes_spec bs
  rw [matchesHex64, Bool.and_eq_true, beq_iff_eq]
  constructor
  · show ((bs.map (fun b => hexOfByte b.val)).flatten).length = 64
    rw [h1, hlen]
  · exact h2

/-- Each side bit is at most 1, so the most-significant-first value of a
branch list is below 2 to the number of branches. -/
theorem msbVal_sideBit_lt (l : List WocBranch) : msbVal (l.map sideBit) < 2 ^ l.length := by
  induction l with
  | nil => simp [msbVal]
  | cons b bs ih =>
    rw [List.map_cons, msbVal]
    have hb : sideBit b ≤ 1 := by
      unfold sideBit
      split <;> simp
    have h3 : sideBit b * 2 ^ bs.length ≤ 2 ^ bs.length := by
      calc sideBit b * 2 ^ bs.length ≤ 1 * 2 ^ bs.length := Nat.mul_le_mul_right _ hb
        _ = 2 ^ bs.length := one_mul _
    simp only [List.length_map, List.length_cons]
    rw [pow_succ]
    omega

/-! Claim theorems. -/

/-- C1: for every identifier for which the indexer returns a Merkle proof,
the resolver returns the Mined envelope shape built from the fetched raw
transaction and that proof, and performs no recursive ancestor resolution:
the trace of recursive calls is empty, the theorem holds even at fuel 0
(where any recursion would fail), and the txInputs oracle is unconstrained,
so no input references are extracted on this path. -/
theorem minedTerminal (w : World) (fuel : Nat) (txid : String) (opts : ROpts)
    (pr : MerkleProof)
    (hv : matchesHex64 txid = true)
    (hraw : w.rawtx (wocNetOf opts) txid ≠ "")
    (hpr : w.proof (wocNetOf opts) txid = some pr) :
    hashwrap w fuel txid opts
      = (.ok (.mined (w.rawtx (wocNetOf opts) txid) pr), []) := by
  cases fuel with
  | zero =>
    rw [hashwrap]
    exact hashwrapStep_mined w none txid opts pr (validate_of_matches hv) hraw hpr
  | succ fuel =>
    rw [hashwrap]
    exact hashwrapStep_mined w _ txid opts pr (validate_of_matches hv) hraw hpr

/-- Witness for minedTerminal: a concrete mined world, resolved with zero
fuel. -/
theorem minedTerminal_witness :
    hashwrap wMined 0 tA opts0 = (.ok (.mined "x" prStub), []) :=
  minedTerminal wMined 0 tA opts0 prStub (by decide) (by decide) rfl

/-- C2: whenever the resolver returns the Pending envelope shape, the keys
of its inputs mapping are exactly the distinct previous-transaction
identifiers referenced by the raw transaction, in order of first
occurrence, with a duplicate reference producing a single entry. -/
theorem pendingInputsDedup (w : World) (fuel : Nat) (txid : String) (opts : ROpts)
    (raw : String) (resps : List MapiResponse) (inputs : List (String × Envelope))
    (tr : Trace)
    (h : hashwrap w fuel txid opts = (.ok (.pending raw resps inputs), tr)) :
    inputs.map Prod.fst = dedupFirst (w.txInputs raw) ∧
    (inputs.map Prod.fst).Nodup ∧
    (∀ t, t ∈ inputs.map Prod.fst ↔ t ∈ w.txInputs raw) := by
  obtain ⟨hraw, hresp, hver, fuel0, hfuel, hloop⟩ :=
    hashwrap_pending_inv w fuel txid opts raw resps inputs tr h
  have hkeys := hashwrapInputs_ok_keys (fun t => hashwrap w fuel0 t opts) opts
    (w.txInputs raw) [] [] inputs tr hloop
  simp only [List.map_nil, List.nil_append] at hkeys
  refine ⟨hkeys, ?_, ?_⟩
  · rw [hkeys]
    exact dedupAcc_nodup (w.txInputs raw) []
  · intro t
    rw [hkeys, mem_dedupAcc (w.txInputs raw) [] t]
    simp

/-- Witness for pendingInputsDedup: the concrete pending world, whose
transaction references tB, tC and tB again; the inputs carry tB and tC
once each, in first-occurrence order. -/
theorem pendingInputsDedup_witness :
    ([(tB, Envelope.mined ("r" ++ tB) prStub),
      (tC, Envelope.mined ("r" ++ tC) prStub)].map Prod.fst
        = dedupFirst (wP.txInputs ("r" ++ tA))) ∧
    ([(tB, Envelope.mined ("r" ++ tB) prStub),
      (tC, Envelope.mined ("r" ++ tC) prStub)].map Prod.fst).Nodup ∧
    (∀ t, t ∈ [(tB, Envelope.mined ("r" ++ tB) prStub),
      (tC, Envelope.mined ("r" ++ tC) prStub)].map Prod.fst
        ↔ t ∈ wP.txInputs ("r" ++ tA)) :=
  pendingInputsDedup wP 1 tA opts0 ("r" ++ tA) [⟨tA, "s", "p"⟩]
    [(tB, .mined ("r" ++ tB) prStub), (tC, .mined ("r" ++ tC) prStub)]
    [(tB, opts0), (tC, opts0)] rfl

/-- C3 (amended to nonempty branch lists): for every raw proof record with
a nonempty branch list, normalization yields the branch hashes in
proof-given order as nodes, and the index is the base-2 integer whose bits,
most significant first, are 0 for a right sibling and 1 otherwise. -/
theorem normalizeWoc_spec (r : WocRecord) (hne : r.branches ≠ []) :
    (normalizeWoc r).nodes = r.branches.map WocBranch.hash ∧
    (normalizeWoc r).index = some (msbVal (r.branches.map sideBit)) := by
  refine ⟨rfl, ?_⟩
  have hidx : (normalizeWoc r).index = parseIntBase2 (r.branches.map branchBit) := rfl
  rcases hb : r.branches with _ | ⟨b, bs⟩
  · exact absurd hb hne
  · rw [hidx, hb]
    have h2 : parseIntBase2 ((b :: bs).map branchBit)
        = some (((b :: bs).map branchBit).foldl
            (fun x ch => 2 * x + (if ch = '1' then 1 else 0)) 0) := rfl
    rw [h2, foldl_bits_eq]
    simp

/-- Witness for normalizeWoc_spec: the literal example of the
specification, branches aa right and bb left, yielding nodes aa, bb and
index 1. -/
theorem normalizeWoc_spec_witness :
    (normalizeWoc ⟨"h", "m", [⟨"aa", "R"⟩, ⟨"bb", "L"⟩]⟩).nodes = ["aa", "bb"] ∧
    (normalizeWoc ⟨"h", "m", [⟨"aa", "R"⟩, ⟨"bb", "L"⟩]⟩).index = some 1 := by
  have h := normalizeWoc_spec ⟨"h", "m", [⟨"aa", "R"⟩, ⟨"bb", "L"⟩]⟩ (by simp)
  refine ⟨h.1, ?_⟩
  rw [h.2]
  decide

/-- Counterexample to C3 as stated: on the record with an empty branch
list the claim asserts nodes equal to the empty hash list and index equal
to the integer value of the empty bit string, namely 0; the code instead
yields NaN (parseInt of the empty string), modelled as none. -/
theorem normalizeWoc_empty_counterexample :
    ¬ ((normalizeWoc ⟨"h", "m", []⟩).nodes = List.map WocBranch.hash [] ∧
       (normalizeWoc ⟨"h", "m", []⟩).index = some (msbVal (List.map sideBit []))) := by
  decide

/-- C8 (code-bug evaluation at the failing input): on a proof record whose
branch list is empty, the source computes parseInt of the empty string,
which is NaN: the normalized index is no integer at all, in particular not
0, and the invariant index strictly below 2 to the number of nodes has no
integer witness. -/
theorem normalizeWoc_empty_invariant_violation :
    (normalizeWoc ⟨"h", "m", []⟩).index = none ∧
    ¬ ∃ n, (normalizeWoc ⟨"h", "m", []⟩).index = some n ∧
        n < 2 ^ (normalizeWoc ⟨"h", "m", []⟩).nodes.length := by
  refine ⟨rfl, ?_⟩
  rintro ⟨n, hn, _⟩
  rw [show (normalizeWoc (⟨"h", "m", []⟩ : WocRecord)).index = none from rfl] at hn
  cases hn

/-- C4: the validation prologue succeeds exactly on identifiers matching
the anchored pattern of 64 lowercase hexadecimal characters; for any other
string — the empty string included — the resolver fails with an
InvalidIdentifier-classified error and an empty trace, for every oracle
world, fuel and options object: the failure is decided before any oracle
field is consulted. -/
theorem txidValidationGate (txid : String) :
    (validateTxid txid = .ok () ↔ matchesHex64 txid = true) ∧
    (matchesHex64 txid = false →
      ∀ (w : World) (fuel : Nat) (opts : ROpts), ∃ e,
        hashwrap w fuel txid opts = (.error e, []) ∧ isInvalidIdentifier e = true) := by
  refine ⟨validateTxid_ok_iff txid, ?_⟩
  intro hm w fuel opts
  have hval : ∃ e0, validateTxid txid = .error e0 := by
    cases hv : validateTxid txid with
    | error e0 => exact ⟨e0, rfl⟩
    | ok u =>
      cases u
      have h2 := (validateTxid_ok_iff txid).mp hv
      rw [hm] at h2
      cases h2
  obtain ⟨e0, he0⟩ := hval
  refine ⟨e0, ?_, validateTxid_error_invalid txid e0 he0⟩
  cases fuel with
  | zero =>
    rw [hashwrap]
    unfold hashwrapStep
    rw [he0]
  | succ fuel =>
    rw [hashwrap]
    unfold hashwrapStep
    rw [he0]

/-- Witness for txidValidationGate: the string zz fails in a concrete
world with an InvalidIdentifier-classified error. -/
theorem txidValidationGate_witness :
    ∃ e, hashwrap w0 0 "zz" opts0 = (.error e, []) ∧ isInvalidIdentifier e = true :=
  (txidValidationGate "zz").2 (by decide) w0 0 opts0

/-- C5: attestation verification performs its checks in the fixed source
order — signature verification over the SHA-256 hash of the payload bytes
(SignatureInvalid), then payload parsing (MalformedPayload), then payload
txid equality with the requested identifier (TxidMismatch, reporting both
identifiers), then returnResult equal to success (AttestationRejected);
each failure is terminal, later checks are not reached, the decoded
payload is returned only when every check passed, and the resolver returns
a Pending envelope only when verification succeeded. -/
theorem attestationVerifierOrder (w : World) (txid : String) (resp : MapiResponse) :
    (w.ecdsaVerify (w.sha256 resp.payload) resp.signature resp.publicKey = false →
      verifyMapi w txid resp
        = .error (.signatureInvalid txid resp.payload resp.publicKey resp.signature)) ∧
    (w.ecdsaVerify (w.sha256 resp.payload) resp.signature resp.publicKey = true →
      w.jsonParse resp.payload = none →
      verifyMapi w txid resp = .error (.malformedPayload resp.payload)) ∧
    (∀ p, w.ecdsaVerify (w.sha256 resp.payload) resp.signature resp.publicKey = true →
      w.jsonParse resp.payload = some p → p.txid ≠ txid →
      verifyMapi w txid resp = .error (.txidMismatch txid p.txid)) ∧
    (∀ p, w.ecdsaVerify (w.sha256 resp.payload) resp.signature resp.publicKey = true →
      w.jsonParse resp.payload = some p → p.txid = txid → p.returnResult ≠ "success" →
      verifyMapi w txid resp
        = .error (.attestationRejected txid p.returnResult p.resultDescription)) ∧
    (∀ p, w.ecdsaVerify (w.sha256 resp.payload) resp.signature resp.publicKey = true →
      w.jsonParse resp.payload = some p → p.txid = txid → p.returnResult = "success" →
      verifyMapi w txid resp = .ok p) ∧
    (∀ (fuel : Nat) (opts : ROpts) (raw : String) (resps : List MapiResponse)
        (inputs : List (String × Envelope)) (tr : Trace),
      hashwrap w fuel txid opts = (.ok (.pending raw resps inputs), tr) →
      ∃ p, verifyMapi w txid (w.mapi (providerOf opts) (authOf opts) txid) = .ok p) := by
  refine ⟨?_, ?_, ?_, ?_, ?_, ?_⟩
  · intro hsig
    simp [verifyMapi, hsig]
  · intro hsig hparse
    simp [verifyMapi, hsig, hparse]
  · intro p hsig hparse hne
    simp [verifyMapi, hsig, hparse, hne]
  · intro p hsig hparse heq hret
    simp [verifyMapi, hsig, hparse, heq, hret]
  · intro p hsig hparse heq hret
    simp [verifyMapi, hsig, hparse, heq, hret]
  · intro fuel opts raw resps inputs tr h
    exact (hashwrap_pending_inv w fuel txid opts raw resps inputs tr h).2.2.1

/-- Witness for attestationVerifierOrder: in a world whose signature
primitive rejects, verification fails with SignatureInvalid carrying the
response fields. -/
theorem attestationVerifierOrder_witness :
    verifyMapi w0 tA ⟨"pl", "sg", "pk"⟩
      = .error (.signatureInvalid tA "pl" "pk" "sg") :=
  (attestationVerifierOrder w0 tA ⟨"pl", "sg", "pk"⟩).1 rfl

/-- C6: every recursive resolution anywhere in the tree is invoked with
exactly the resolver options of the parent call — the same network
selector and the same credential; the output-format selector is no part of
the recursion options at all: it is stripped at the top level by
GetOptions.toROpts and interpreted only by getEnvelope. -/
theorem recursionSameOptions (w : World) (fuel : Nat) (txid : String) (g : GetOptions)
    (r : Except Err Envelope) (tr : Trace)
    (h : hashwrap w fuel txid g.toROpts = (r, tr)) :
    ∀ e ∈ tr, e.2 = g.toROpts :=
  hashwrap_trace_opts w fuel txid g.toROpts r tr h

/-- Witness for recursionSameOptions: in the concrete pending world both
recursive calls receive exactly the stripped top-level options. -/
theorem recursionSameOptions_witness :
    (tB, opts0).2 = GetOptions.toROpts ⟨none, none, some "transport"⟩ :=
  recursionSameOptions wP 1 tA ⟨none, none, some "transport"⟩
    (.ok (.pending ("r" ++ tA) [⟨tA, "s", "p"⟩]
      [(tB, .mined ("r" ++ tB) prStub), (tC, .mined ("r" ++ tC) prStub)]))
    [(tB, opts0), (tC, opts0)] rfl (tB, opts0) (List.mem_cons_self _ _)

/-- C7: on testnet, when the transaction has no Merkle proof, a missing
(falsy) credential fails with MissingCredential and a credential that does
not start with the testnet scope marker fails with WrongCredentialScope;
both conclusions hold with the attestation-provider oracle field of the
world left unconstrained, so the failure precedes any provider call, and
the trace is empty. -/
theorem testnetCredentialGate (w : World) (fuel : Nat) (txid : String) (opts : ROpts)
    (hv : matchesHex64 txid = true)
    (hnet : opts.network = some "testnet")
    (hraw : w.rawtx "test" txid ≠ "")
    (hpr : w.proof "test" txid = none) :
    (truthy opts.taalApiKey = false →
      hashwrap w fuel txid opts = (.error .missingCredential, [])) ∧
    (∀ a, opts.taalApiKey = some a → a ≠ "" → a.startsWith "testnet_" = false →
      hashwrap w fuel txid opts = (.error .wrongCredentialScope, [])) := by
  have hwoc : wocNetOf opts = "test" := by rw [wocNetOf, if_pos hnet]
  have hraw2 : w.rawtx (wocNetOf opts) txid ≠ "" := by
    rw [hwoc]
    exact hraw
  have hpr2 : w.proof (wocNetOf opts) txid = none := by
    rw [hwoc]
    exact hpr
  constructor
  · intro hkey
    have hc : credCheck opts = .error .missingCredential := by
      simp [credCheck, hnet, hkey]
    cases fuel with
    | zero =>
      rw [hashwrap]
      exact hashwrapStep_credError w none txid opts _
        (validate_of_matches hv) hraw2 hpr2 hc
    | succ fuel =>
      rw [hashwrap]
      exact hashwrapStep_credError w _ txid opts _
        (validate_of_matches hv) hraw2 hpr2 hc
  · intro a ha hne hsw
    have hc : credCheck opts = .error .wrongCredentialScope := by
      simp [credCheck, hnet, ha, truthy, hne, hsw]
    cases fuel with
    | zero =>
      rw [hashwrap]
      exact hashwrapStep_credError w none txid opts _
        (validate_of_matches hv) hraw2 hpr2 hc
    | succ fuel =>
      rw [hashwrap]
      exact hashwrapStep_credError w _ txid opts _
        (validate_of_matches hv) hraw2 hpr2 hc

/-- Witness for testnetCredentialGate: on testnet with no credential the
concrete proofless world fails with MissingCredential. -/
theorem testnetCredentialGate_witness :
    hashwrap wTest 0 tA ⟨some "testnet", none⟩ = (.error .missingCredential, []) :=
  (testnetCredentialGate wTest 0 tA ⟨some "testnet", none⟩
    (by decide) rfl (by decide) rfl).1 rfl

/-- C9: at the top level only, when the transport output format is
requested, getEnvelope returns the binary transport encoding of the
assembled envelope, and with no output format requested it returns the
structured envelope; the recursive resolver hashwrap receives no encoder
at all, so the transform cannot apply below the top level. -/
theorem outputFormatTopLevel (w : World) (encode : Envelope → List Nat) (fuel : Nat)
    (txid : String) (g : GetOptions) (env : Envelope)
    (h : (hashwrap w fuel txid g.toROpts).1 = .ok env) :
    (g.outputFormat = some "transport" →
      getEnvelope w encode fuel txid g = .ok (.transport (encode env))) ∧
    (g.outputFormat = none →
      getEnvelope w encode fuel txid g = .ok (.structured env)) := by
  constructor
  · intro hfmt
    simp only [getEnvelope, h]
    rw [if_pos hfmt]
  · intro hfmt
    simp only [getEnvelope, h]
    rw [if_neg (by simp [hfmt])]

/-- Witness for outputFormatTopLevel: in the mined world with the
transport format requested, the encoding of the envelope is returned. -/
theorem outputFormatTopLevel_witness :
    getEnvelope wMined (fun _ => []) 0 tA ⟨none, none, some "transport"⟩
      = .ok (.transport []) :=
  (outputFormatTopLevel wMined (fun _ => []) 0 tA ⟨none, none, some "transport"⟩
    (.mined "x" prStub) rfl).1 rfl

/-- C10: an identifier passed to a recursive call is the hexadecimal
rendering of a 32-byte previous-transaction hash and is therefore a valid
64-character lowercase-hex identifier; consequently, when the transaction
parser produces only such renderings, every traced recursive call receives
a valid identifier, and with a valid top-level identifier no resolution
error anywhere in the tree is classified InvalidIdentifier: that branch is
unreachable in recursive calls. -/
theorem recursiveCallsValidIds (w : World) (fuel : Nat) (txid : String) (opts : ROpts)
    (hin : ∀ raw t, t ∈ w.txInputs raw →
      ∃ bs : List (Fin 256), bs.length = 32 ∧ t = hexOfBytes bs) :
    (∀ bs : List (Fin 256), bs.length = 32 → matchesHex64 (hexOfBytes bs) = true) ∧
    (∀ (r : Except Err Envelope) (tr : Trace), hashwrap w fuel txid opts = (r, tr) →
      ∀ e ∈ tr, matchesHex64 e.1 = true) ∧
    (matchesHex64 txid = true →
      ∀ (e : Err) (tr : Trace), hashwrap w fuel txid opts = (.error e, tr) →
        isInvalidIdentifier e = false) := by
  have hin2 : ∀ raw t, t ∈ w.txInputs raw → matchesHex64 t = true := by
    intro raw t ht
    obtain ⟨bs, hlen, hts⟩ := hin raw t ht
    rw [hts]
    exact hexOfBytes_matches bs hlen
  exact ⟨fun bs hl => hexOfBytes_matches bs hl,
    fun r tr h => hashwrap_trace_valid w hin2 fuel txid opts r tr h,
    fun hv e tr h => hashwrap_no_invalid w hin2 fuel txid opts hv e tr h⟩

/-- Witness for recursiveCallsValidIds: in a world with no inputs at all
the hypotheses hold vacuously and the not-found failure at a valid
identifier is not classified InvalidIdentifier. -/
theorem recursiveCallsValidIds_witness :
    isInvalidIdentifier (.txNotFound tA) = false :=
  (recursiveCallsValidIds w0 0 tA opts0
    (fun raw t ht => absurd ht (List.not_mem_nil t))).2.2 (by decide)
    (.txNotFound tA) [] rfl
